import Mathlib

/-!
Verification development for the document-to-vector ETL pipeline
(`etl_pipeline`): shallow embedding of the data model (Chunk, Document,
AuditEvent), the transformers (Chunker, Normalizer, Embedder), the
pgvector loader and the audit loader, together with theorems settling
the specification claims about them.

Modelling conventions:
- Python floats are modelled as rationals (`ℚ`), exact arithmetic.
- UUIDs are modelled as `Nat`; `uuid4` freshness is expressed by
  explicit id-supply parameters.
- Wall-clock timestamps (`datetime.utcnow()`) are explicit `Nat`
  parameters threaded to the functions that read the clock.
- Python `str.strip()` is modelled character-wise (`strip` below);
  Python truthiness of strings/lists is modelled by `= ""` / `= []`.
- External library calls (the LangChain text splitters, the OpenAI
  embeddings endpoint, the SQL engine) are parameters of the embedded
  functions; everything written in the repository itself is translated.
-/

namespace ETL

/-- Whitespace as recognized by Python `str.strip()` (ASCII part;
Python additionally strips a few rare control and Unicode space
characters that never matter here). -/
def pyWs (c : Char) : Bool := c.isWhitespace

/-- Character-level model of `str.strip()`: drop leading whitespace,
then trailing whitespace. -/
def stripList (cs : List Char) : List Char :=
  List.rdropWhile pyWs (cs.dropWhile pyWs)

/-- Model of Python `str.strip()` (strip surrounding whitespace). -/
def strip (s : String) : String := String.mk (stripList s.data)

/-! ## Chunk model (`etl_pipeline/models/chunk.py`) -/

/-- Chunk-level provenance metadata attached by the chunker
(`Chunker.chunk` builds the dict with exactly these keys). -/
structure ChunkMeta where
  source : String
  content_type : String
  chunk_size : Nat
  chunk_overlap : Nat
  strategy : String
deriving DecidableEq, Repr

/-- Model of the pydantic `Chunk` record. `created_at` (a pure
wall-clock default) is omitted; no claim reads it. -/
structure Chunk where
  id : Nat
  document_id : String
  chunk_index : Nat
  content : String
  embedding : Option (List ℚ)
  metadata : ChunkMeta
  content_hash : Option String
deriving DecidableEq, Repr

/-- Model of the `validate_embedding_dimension` field validator: an
empty list is coerced to `None`; the numbers-only check is vacuous in
the typed model (the list already contains numbers). -/
def validateEmbeddingField : Option (List ℚ) → Option (List ℚ)
  | some l => if l.length = 0 then none else some l
  | none => none

/-- Model of constructing `Chunk(...)`: pydantic runs the field
validators. `validate_content` rejects empty/whitespace-only content
and stores the stripped content; `validate_embedding_dimension` coerces
an empty embedding list to `None`. -/
def mkChunk (id : Nat) (document_id : String) (chunk_index : Nat) (content : String)
    (embedding : Option (List ℚ)) (metadata : ChunkMeta) (content_hash : Option String) :
    Except String Chunk :=
  if strip content = "" then
    Except.error "Chunk content cannot be empty or whitespace"
  else
    Except.ok
      { id := id
        document_id := document_id
        chunk_index := chunk_index
        content := strip content
        embedding := validateEmbeddingField embedding
        metadata := metadata
        content_hash := content_hash }

/-- Model of `Chunk.has_embedding`: `self.embedding is not None and
len(self.embedding) > 0`. -/
def Chunk.has_embedding (c : Chunk) : Bool :=
  c.embedding.isSome && decide (0 < (c.embedding.getD []).length)

/-! ## Chunker (`etl_pipeline/transformers/chunker.py`)

`Chunker.chunk` routes the document text to a LangChain splitter and
then converts the returned list of texts to `Chunk` values.  The
splitter is an external library call, modelled as a parameter
`split : String → List String`; the conversion loop is translated
verbatim: `enumerate(chunk_texts)` supplies `idx`, whitespace-only
texts are skipped by `continue` (which does not renumber later
chunks), and each retained text is stripped and validated through the
`Chunk` constructor. -/

structure ChunkerConfig where
  chunk_size : Nat
  chunk_overlap : Nat
  strategy : String
deriving DecidableEq, Repr

/-- One iteration's `Chunk(...)` construction in `Chunker.chunk`
(document_id, zero-based index from `enumerate`, stripped content,
`embedding=[]`, provenance metadata dict). `mkId` models the
`default_factory=uuid4` id assignment for the chunk built at
position `idx`. -/
def chunkOfText (cfg : ChunkerConfig) (mkId : Nat → Nat) (document_id source content_type : String)
    (idx : Nat) (t : String) : Except String Chunk :=
  mkChunk (mkId idx) document_id idx (strip t) (some [])
    { source := source
      content_type := content_type
      chunk_size := t.length
      chunk_overlap := cfg.chunk_overlap
      strategy := cfg.strategy }
    none

/-- Conversion loop of `Chunker.chunk` over the splitter output:
`for idx, chunk_text in enumerate(chunk_texts)`, skipping
whitespace-only texts (the exception path becomes the `Except` error,
re-raised as a `TransformationError` by the `except` clause). -/
def chunkLoop (cfg : ChunkerConfig) (mkId : Nat → Nat) (document_id source content_type : String) :
    Nat → List String → Except String (List Chunk)
  | _, [] => Except.ok []
  | idx, t :: rest =>
    if strip t = "" then
      chunkLoop cfg mkId document_id source content_type (idx + 1) rest
    else do
      let c ← chunkOfText cfg mkId document_id source content_type idx t
      let cs ← chunkLoop cfg mkId document_id source content_type (idx + 1) rest
      Except.ok (c :: cs)

/-- Model of `Chunker.chunk`: empty/whitespace-only document content
returns `[]`; otherwise the text is sent to the configured splitter
(external, parameter `split`) and its output converted chunk by
chunk. -/
def Chunker.chunk (cfg : ChunkerConfig) (mkId : Nat → Nat) (split : String → List String)
    (document_id source content_type : String) (content : String) :
    Except String (List Chunk) :=
  if strip content = "" then Except.ok []
  else chunkLoop cfg mkId document_id source content_type 0 (split content)

/-! ## Vector store loader (`etl_pipeline/loaders/vector_loader.py`)

The pgvector table is modelled as a list of `Chunk` rows keyed by
`id` (the table's primary key).  The SQL engine itself is external;
what is embedded is the loader's control flow: up-front dimension
validation in `load_chunks`, slicing into batches of `batch_size`
(`for i in range(0, len(chunks), self.batch_size)`), the per-row
effect of `INSERT ... ON CONFLICT (id) DO UPDATE` issued by
`_upsert_batch`, and the duplicate-detecting plain insert of
`_insert_chunks`. -/

structure LoaderConfig where
  batch_size : Nat
  upsert_mode : Bool
  embedding_dimension : Nat
deriving DecidableEq, Repr

/-- Fuel-driven helper for batch slicing (the fuel is the list length,
bounding the Python loop `for i in range(0, len(chunks), batch_size)`;
it never runs out). -/
def toBatchesFuel (bs : Nat) : Nat → List α → List (List α)
  | _, [] => []
  | 0, _ :: _ => []
  | fuel + 1, x :: xs => (x :: xs.take (bs - 1)) :: toBatchesFuel bs fuel (xs.drop (bs - 1))

/-- Batch slicing `chunks[i:i + batch_size]` for `i` in
`range(0, len(chunks), batch_size)`.  For `batch_size = 0` Python's
`range` would raise; the loader's `validate_config` requires a
positive batch size, and the model then agrees with the source. -/
def toBatches (bs : Nat) (l : List α) : List (List α) :=
  toBatchesFuel bs l.length l

/-- Row effect of `ON CONFLICT (id) DO UPDATE`: if a row with the same
`id` exists it is replaced field by field (`document_id`,
`chunk_index`, `content`, `embedding`, `metadata`, `content_hash` are
all overwritten with the excluded row's values), otherwise the row is
inserted. -/
def upsertRow (table : List Chunk) (c : Chunk) : List Chunk :=
  if table.any (fun r => r.id = c.id) then
    table.map (fun r => if r.id = c.id then c else r)
  else
    table ++ [c]

/-- Model of `_upsert_batch`: `execute_values` applies the upsert
statement to each prepared row in order. -/
def upsertBatch (table : List Chunk) (batch : List Chunk) : List Chunk :=
  batch.foldl upsertRow table

/-- Model of `upsert_chunks`: process the chunk list in batches of
`batch_size`, upserting each batch (the database round-trip itself is
assumed to succeed; its failure modes are external). -/
def upsert_chunks (cfg : LoaderConfig) (table : List Chunk) (chunks : List Chunk) :
    List Chunk :=
  (toBatches cfg.batch_size chunks).foldl upsertBatch table

/-- Loading errors surfaced by the loader (`utils/exceptions.py`
families used in `load_chunks`/`_insert_chunks`). -/
inductive LoadErr where
  | validationError (message : String) : LoadErr
  | loadingError (message : String) : LoadErr
deriving DecidableEq, Repr

/-- Validation loop at the top of `load_chunks`: for each chunk,
`if not chunk.embedding` (Python falsy: `None` or the empty list)
raises a missing-embedding `ValidationError`, then a length
comparison against `embedding_dimension` raises a mismatch
`ValidationError`.  Returns the first error, if any. -/
def validateChunkEmbeddings (dim : Nat) : List Chunk → Option LoadErr
  | [] => none
  | c :: rest =>
    match c.embedding with
    | none => some (LoadErr.validationError "missing embedding")
    | some e =>
      if e = [] then some (LoadErr.validationError "missing embedding")
      else if e.length ≠ dim then some (LoadErr.validationError "embedding dimension mismatch")
      else validateChunkEmbeddings dim rest

/-- Per-batch effect of `_insert_chunks` (no conflict clause): the
batch insert raises an `IntegrityError` when a primary-key collision
occurs, either against the existing table or within the batch, and
that batch is rolled back; otherwise all rows of the batch are
appended. -/
def insertBatch (table : List Chunk) (batch : List Chunk) : Except LoadErr (List Chunk) :=
  if (batch.any fun c => table.any fun r => r.id = c.id) ||
      (batch.any fun c => 1 < (batch.countP fun r => r.id = c.id)) then
    Except.error (LoadErr.loadingError "Duplicate chunk detected (use upsert_mode=True)")
  else
    Except.ok (table ++ batch)

/-- Length of a chunk's embedding as stored (`0` when absent), the
quantity `load_chunks` compares against the configured dimension. -/
def chunkEmbLen (c : Chunk) : Nat := (c.embedding.getD []).length

/-- Outcome of a loader write: the resulting table, paired with the
raised error if the call failed.  Batches committed before a failing
batch stay committed (each `_upsert_batch`/insert batch commits its
own transaction). -/
structure LoadOutcome where
  table : List Chunk
  error : Option LoadErr
deriving DecidableEq, Repr

/-- Model of `_insert_chunks`: insert batch by batch; on the first
failing batch the run stops with a `LoadingError`, keeping the batches
already committed. -/
def insert_chunks (cfg : LoaderConfig) (table : List Chunk) (chunks : List Chunk) :
    LoadOutcome :=
  (toBatches cfg.batch_size chunks).foldl
    (fun acc batch =>
      match acc.error with
      | some _ => acc
      | none =>
        match insertBatch acc.table batch with
        | Except.ok t => { table := t, error := none }
        | Except.error e => { table := acc.table, error := some e })
    { table := table, error := none }

/-- Model of `load_chunks`: empty input is a no-op; every chunk's
embedding is validated (presence, then length against the configured
`embedding_dimension`) before any database write; only then does the
call dispatch to `upsert_chunks` or `_insert_chunks` according to
`upsert_mode`. -/
def load_chunks (cfg : LoaderConfig) (table : List Chunk) (chunks : List Chunk) :
    LoadOutcome :=
  if chunks = [] then { table := table, error := none }
  else
    match validateChunkEmbeddings cfg.embedding_dimension chunks with
    | some e => { table := table, error := some e }
    | none =>
      if cfg.upsert_mode then { table := upsert_chunks cfg table chunks, error := none }
      else insert_chunks cfg table chunks

/-! ## Pipeline ingestion of one document (`etl_pipeline/main.py`)

One run of the transform-and-load stages for a single document:
`chunker.chunk` builds chunks (each receiving a fresh `uuid4` id,
modelled by the run's id supply `mkId`), `embedder.embed_chunks`
fills each chunk's embedding from its content (a new `Chunk` with the
same `id` and the embedding set), and `vector_loader.load_chunks`
writes them.  The embedding provider is modelled as a deterministic
function `g` of the chunk content (identical content, identical
vectors, as claim C1 assumes). -/

/-- Model of `Embedder.embed_chunks` on the success path: each chunk is
rebuilt with the embedding of its content, all other fields copied. -/
def embedChunks (g : String → List ℚ) (chunks : List Chunk) : List Chunk :=
  chunks.map (fun c => { c with embedding := some (g c.content) })

/-- One pipeline run over a document: chunk, embed, load.  A chunking
error aborts the run leaving the table unchanged (the driver audits the
failure and moves on). -/
def ingestDocument (ccfg : ChunkerConfig) (lcfg : LoaderConfig) (mkId : Nat → Nat)
    (split : String → List String) (g : String → List ℚ)
    (document_id source content_type content : String) (table : List Chunk) :
    LoadOutcome :=
  match Chunker.chunk ccfg mkId split document_id source content_type content with
  | Except.error e => { table := table, error := some (LoadErr.loadingError e) }
  | Except.ok chunks => load_chunks lcfg table (embedChunks g chunks)

/-! ## Retry utilities (`etl_pipeline/utils/retry.py`)

`retry_api_call` wraps a function with tenacity:
`stop_after_attempt(max_attempts)`, `retry_if_exception_type(excs)`,
`reraise=True`.  Exceptions are modelled as a closed datatype and
exception *classes* as tags with an `isinstance` relation; crucially
the `retry_api_call` tuple ends with the catch-all `Exception`
class. -/

/-- Exception values that can cross the retry boundary. -/
inductive PyExc where
  | embeddingError (rateLimit : Bool) (model : String) (message : String) : PyExc
  | connectionError (message : String) : PyExc
  | timeoutError : PyExc
  | configurationError (configKey : String) : PyExc
  | validationError (field : String) : PyExc
  | otherError (message : String) : PyExc
deriving DecidableEq, Repr

/-- Exception classes appearing in retry tuples. -/
inductive ExcClass where
  | embeddingErrorC : ExcClass
  | connectionErrorC : ExcClass
  | timeoutErrorC : ExcClass
  | exceptionC : ExcClass
deriving DecidableEq, Repr

/-- Model of `isinstance(e, cls)`: `Exception` is the base class of
every exception. -/
def isInstance (e : PyExc) : ExcClass → Bool
  | ExcClass.exceptionC => true
  | ExcClass.embeddingErrorC =>
    match e with
    | PyExc.embeddingError _ _ _ => true
    | _ => false
  | ExcClass.connectionErrorC =>
    match e with
    | PyExc.connectionError _ => true
    | _ => false
  | ExcClass.timeoutErrorC =>
    match e with
    | PyExc.timeoutError => true
    | _ => false

/-- Model of `retry_if_exception_type(excs)` on a raised exception. -/
def anyInstance (tup : List ExcClass) (e : PyExc) : Bool :=
  tup.any (isInstance e)

/-- The exception tuple of `retry_api_call`: `(EmbeddingError,
ConnectionError, TimeoutError, Exception)` — the final entry is the
catch-all `Exception` (the source comments it as: catch all for
API-specific errors). -/
def retryApiTuple : List ExcClass :=
  [ExcClass.embeddingErrorC, ExcClass.connectionErrorC, ExcClass.timeoutErrorC,
   ExcClass.exceptionC]

/-- Tenacity loop (`stop_after_attempt`, `retry_if_exception_type`,
`reraise=True`): run attempt `k` (whose outcome is `f k`); on success
return; on an exception matching the tuple retry while attempts
remain, else re-raise the exception.  `remaining` counts the retries
still allowed after the current attempt.  Returns the propagated
outcome together with the number of attempts actually made. -/
def retryFrom (tup : List ExcClass) (f : Nat → Except PyExc α) :
    Nat → Nat → Except PyExc α × Nat
  | 0, k => (f k, k + 1)
  | m + 1, k =>
    match f k with
    | Except.ok v => (Except.ok v, k + 1)
    | Except.error e =>
      if anyInstance tup e then retryFrom tup f m (k + 1)
      else (Except.error e, k + 1)

/-- Decorated call with `max_attempts` total attempts (tenacity's
`stop_after_attempt`); `max_attempts = 3` for `retry_api_call`'s
default and for the `@retry_api_call(max_attempts=3)` on
`Embedder.embed`. -/
def retryCall (maxAttempts : Nat) (tup : List ExcClass) (f : Nat → Except PyExc α) :
    Except PyExc α × Nat :=
  retryFrom tup f (maxAttempts - 1) 0

/-! ## Embedder (`etl_pipeline/transformers/embedder.py`)

The OpenAI endpoint is external; it is modelled per attempt by
`provider : Nat → Except PyExc (List ℚ)` for a single text (attempt
`k` of the retried `embed`) and, for batch calls, by a per-text
vector function `g` plus a per-batch success flag `batchOk` (a failing
batch call raises and triggers the per-text fallback).  The in-memory
cache is disabled by default (`cache_enabled` defaults to `False`)
and is not modelled. -/

structure EmbedderConfig where
  model : String
  dimension : Nat
  batch_size : Nat
  max_retries : Nat
  enabled : Bool
deriving DecidableEq, Repr

/-- Body of `Embedder.embed` (inside the `@retry_api_call` decorator):
disabled-embedder check, empty-text check, provider call, then the
dimension validation that raises an `EmbeddingError` naming the
model. -/
def embedBody (cfg : EmbedderConfig) (provider : Nat → Except PyExc (List ℚ))
    (text : String) (k : Nat) : Except PyExc (List ℚ) :=
  if !cfg.enabled then
    Except.error (PyExc.embeddingError false cfg.model "Embedder is disabled")
  else if strip text = "" then
    Except.error (PyExc.embeddingError false cfg.model "Text cannot be empty")
  else
    match provider k with
    | Except.error e => Except.error e
    | Except.ok embedding =>
      if embedding.length ≠ cfg.dimension then
        Except.error (PyExc.embeddingError false cfg.model "Embedding dimension mismatch")
      else
        Except.ok embedding

/-- Model of `Embedder.embed`: the body wrapped in
`@retry_api_call(max_attempts=3, wait_seconds=1.0)` (the decorator's
attempt cap is the literal 3; the `max_retries` config field is not
consulted by the decorator).  Returns the outcome and the number of
attempts made. -/
def Embedder.embed (cfg : EmbedderConfig) (provider : Nat → Except PyExc (List ℚ))
    (text : String) : Except PyExc (List ℚ) × Nat :=
  retryCall 3 retryApiTuple (embedBody cfg provider text)

/-- Per-text fallback loop used by both batch paths when a batch call
raises: `self.embed(text)` for each text in order, appending each
vector; an individual failure raises an `EmbeddingError` that aborts
the whole batch call.  The single-text embed is abstracted as
`e : String → Except PyExc (List ℚ)` (its relation to the provider is
a hypothesis of the theorems). -/
def fallbackTexts (model : String) (e : String → Except PyExc (List ℚ)) :
    List String → Except PyExc (List (List ℚ))
  | [] => Except.ok []
  | t :: ts =>
    match e t with
    | Except.error _ =>
      Except.error (PyExc.embeddingError false model "Failed to embed text in batch")
    | Except.ok v =>
      match fallbackTexts model e ts with
      | Except.error err => Except.error err
      | Except.ok vs => Except.ok (v :: vs)

/-- Model of `_embed_batch_openai_sequential`: batches processed in
order (`i` is the batch ordinal); a successful batch call contributes
the provider's vectors for the batch unchanged (note: with no
dimension validation); a failed batch call falls back to per-text
embedding. -/
def seqBatches (model : String) (g : String → List ℚ) (batchOk : Nat → Bool)
    (e : String → Except PyExc (List ℚ)) :
    Nat → List (List String) → Except PyExc (List (List ℚ))
  | _, [] => Except.ok []
  | i, b :: rest =>
    match (if batchOk i then Except.ok (b.map g) else fallbackTexts model e b :
        Except PyExc (List (List ℚ))) with
    | Except.error err => Except.error err
    | Except.ok vs =>
      match seqBatches model g batchOk e (i + 1) rest with
      | Except.error err => Except.error err
      | Except.ok rs => Except.ok (vs ++ rs)

/-- Model of `Embedder._embed_batch_openai_sequential` applied to the
sliced input. -/
def embed_batch_sequential (cfg : EmbedderConfig) (g : String → List ℚ)
    (batchOk : Nat → Bool) (e : String → Except PyExc (List ℚ)) (texts : List String) :
    Except PyExc (List (List ℚ)) :=
  seqBatches cfg.model g batchOk e 0 (toBatches cfg.batch_size texts)

/-- Model of `_process_single_batch` followed by the `as_completed`
handler for one future: a successful call yields the provider's
vectors for the batch (again with no dimension validation); a raising
call triggers the per-text fallback for that batch. -/
def processBatchResult (model : String) (g : String → List ℚ) (batchOk : Nat → Bool)
    (e : String → Except PyExc (List ℚ)) (i : Nat) (b : List String) :
    Except PyExc (List (List ℚ)) :=
  if batchOk i then Except.ok (b.map g) else fallbackTexts model e b

/-- The `as_completed` collection loop of
`_embed_batch_openai_parallel`: futures complete in the order given by
`order` (a permutation of the batch indices); each completed batch
stores its vectors under its batch index; any failure propagates out
of the executor block. -/
def collectResults (model : String) (g : String → List ℚ) (batchOk : Nat → Bool)
    (e : String → Except PyExc (List ℚ)) (batches : List (List String)) :
    List Nat → Except PyExc (List (Nat × List (List ℚ)))
  | [] => Except.ok []
  | i :: rest =>
    match processBatchResult model g batchOk e i ((batches.get? i).getD []) with
    | Except.error err => Except.error err
    | Except.ok vs =>
      match collectResults model g batchOk e batches rest with
      | Except.error err => Except.error err
      | Except.ok acc => Except.ok ((i, vs) :: acc)

/-- First-match association lookup, modelling `results[batch_idx]`. -/
def lookupResult (i : Nat) : List (Nat × List (List ℚ)) → Option (List (List ℚ))
  | [] => none
  | (j, v) :: rest => if j = i then some v else lookupResult i rest

/-- Model of `_embed_batch_openai_parallel`: split into indexed
batches, collect results in completion order, then reassemble
`for batch_idx in sorted(results.keys())`, extending in index
order. -/
def embed_batch_parallel (cfg : EmbedderConfig) (g : String → List ℚ)
    (batchOk : Nat → Bool) (e : String → Except PyExc (List ℚ)) (texts : List String)
    (order : List Nat) : Except PyExc (List (List ℚ)) :=
  let batches := toBatches cfg.batch_size texts
  match collectResults cfg.model g batchOk e batches order with
  | Except.error err => Except.error err
  | Except.ok results =>
    let sortedKeys := (results.map Prod.fst).insertionSort (· ≤ ·)
    Except.ok (sortedKeys.foldl (fun acc i => acc ++ (lookupResult i results).getD []) [])

/-! ## Normalizer (`etl_pipeline/transformers/normalizer.py`)

`normalize` is a function of the raw document, the configuration and
the wall clock: `normalized_at=datetime.utcnow()` reads the current
time, modelled by the explicit `now` parameter.  The helper string
transformations are translated below; none of them reads anything but
its arguments. -/

structure NormalizerConfig where
  preserve_formatting : Bool
  extract_metadata : Bool
deriving DecidableEq, Repr

/-- Model of the pydantic `RawDocument` record. -/
structure RawDocument where
  id : Nat
  source : String
  content : String
  content_type : String
  metadata : List (String × String)
  extracted_at : Nat
deriving DecidableEq, Repr

/-- Model of the pydantic `Document` record. -/
structure Document where
  id : Nat
  source : String
  content : String
  content_type : String
  metadata : List (String × String)
  extracted_at : Nat
  normalized_at : Nat
deriving DecidableEq, Repr

/-- Longest common prefix of two strings (character-wise), used by the
`textwrap.dedent` margin computation. -/
def commonStartList : List Char → List Char → List Char
  | a :: as, b :: bs => if a = b then a :: commonStartList as bs else []
  | _, _ => []

def commonStart (a b : String) : String :=
  String.mk (commonStartList a.data b.data)

/-- A line consisting solely of spaces and tabs
(`textwrap`'s `^[ \t]+$`). -/
def isBlankLine (l : String) : Bool :=
  !l.isEmpty && l.all (fun c => c = ' ' || c = '\t')

/-- Leading run of spaces and tabs of a line. -/
def lineIndent (l : String) : String :=
  l.takeWhile (fun c => c = ' ' || c = '\t')

/-- Model of `textwrap.dedent`: blank out whitespace-only lines,
compute the margin as the common space/tab prefix of the remaining
lines, and strip that margin from every line. -/
def dedent (text : String) : String :=
  let lines := (text.splitOn "\n").map (fun l => if isBlankLine l then "" else l)
  let indents := (lines.filter (fun l => !l.isEmpty)).map lineIndent
  let margin :=
    match indents with
    | [] => ""
    | i :: is => is.foldl commonStart i
  String.intercalate "\n"
    (lines.map (fun l =>
      if margin.isEmpty then l
      else if margin.isPrefixOf l then l.drop margin.length else l))

/-- Model of `_clean_whitespace`: normalize line endings, dedent,
strip. -/
def cleanWhitespace (text : String) : String :=
  strip (dedent ((text.replace "\r\n" "\n").replace "\r" "\n"))

/-- A front-matter delimiter line: literal dashes followed only by
whitespace (the regex piece `---\s*` up to the newline). -/
def isDashDelim (l : String) : Bool :=
  l.startsWith "---" && strip (l.drop 3) = ""

/-- Index (within the remaining lines) of the closing front-matter
delimiter: the first delimiter line that is at position ≥ 1 (the regex
requires a content line between the delimiters) and is followed by a
newline (not the final, unterminated line). -/
def findCloseDelim (rest : List String) : Option Nat :=
  match rest.findIdx? (fun l => isDashDelim l) with
  | none => none
  | some i => if 1 ≤ i ∧ i + 1 < rest.length then some i else none

/-- Model of `_strip_yaml_front_matter`
(`re.sub(r"^---\s*\n.*?\n---\s*\n", "", text, flags=re.DOTALL)`,
skipped when `preserve_formatting`): a leading delimiter line, at
least one line of front matter, and a terminated closing delimiter
line are removed.  Line-based rendering of the anchored regex. -/
def stripYamlFrontMatter (preserve : Bool) (text : String) : String :=
  if preserve then text
  else
    match text.splitOn "\n" with
    | [] => text
    | first :: rest =>
      if isDashDelim first then
        match findCloseDelim rest with
        | some i => String.intercalate "\n" (rest.drop (i + 1))
        | none => text
      else text

/-- Model of `_normalize_plain`. -/
def normalizePlain (cfg : NormalizerConfig) (content : String) : String :=
  if cfg.preserve_formatting then content else strip content

/-- Model of `_normalize_markdown`. -/
def normalizeMarkdown (cfg : NormalizerConfig) (content : String) : String :=
  stripYamlFrontMatter cfg.preserve_formatting
    (if cfg.preserve_formatting then content else strip content)

/-- Substring test (`pat in s` for a nonempty pattern). -/
def containsSub (s pat : String) : Bool :=
  1 < (s.splitOn pat).length

/-- Model of `_normalize_content_type_label`. -/
def normalizeContentTypeLabel (content_type : String) : String :=
  if containsSub content_type "markdown" then "markdown"
  else if containsSub content_type "plain" then "plain"
  else "plain"

/-- Last path component (`pathlib.Path(...).name`), via `/`-separated
parts; empty and `.`-like sources give the empty name as in
pathlib's degenerate cases. -/
def pathParts (source : String) : List String :=
  (source.splitOn "/").filter (fun s => !s.isEmpty && s ≠ ".")

def pathName (source : String) : String :=
  (pathParts source).getLastD ""

/-- Model of `pathlib` `suffix`: from the last dot, provided it is
neither the leading character nor leaves an empty extension. -/
def pathSuffix (name : String) : String :=
  let cs := name.data
  match cs.reverse.findIdx? (fun c => c = '.') with
  | none => ""
  | some rj =>
    let i := cs.length - 1 - rj
    if 0 < i ∧ i + 1 < cs.length then String.mk (cs.drop i) else ""

/-- Model of `pathlib` `stem`: the name with its suffix removed. -/
def pathStem (name : String) : String :=
  name.dropRight (pathSuffix name).length

/-- Name of the parent directory (`p.parent.name`). -/
def parentDirName (source : String) : String :=
  ((pathParts source).dropLast).getLastD ""

/-- Model of `_infer_metadata_from_source`. -/
def inferMetadataFromSource (source : String) : List (String × String) :=
  [("file_name", pathName source),
   ("file_stem", pathStem (pathName source)),
   ("file_extension", (pathSuffix (pathName source)).toLower),
   ("parent_dir", parentDirName source)]

/-- Title extraction from one line, matching `^\s*#\s+(.+)$`: optional
leading whitespace, a single hash, at least one whitespace character,
then a nonempty remainder (returned stripped). -/
def lineTitle? (l : String) : Option String :=
  let afterWs := l.dropWhile Char.isWhitespace
  if afterWs.startsWith "#" then
    let after := afterWs.drop 1
    let rest := after.dropWhile Char.isWhitespace
    if rest.length < after.length && !rest.isEmpty then some (strip rest) else none
  else none

/-- Model of `_try_extract_title_from_markdown` (`re.search` with
`re.MULTILINE` returns the first matching line). -/
def tryExtractTitle (text : String) : Option String :=
  (text.splitOn "\n").findSome? lineTitle?

/-- Insertion-ordered dict `update` of one key. -/
def setKey (m : List (String × String)) (k v : String) : List (String × String) :=
  if m.any (fun q => q.1 = k) then m.map (fun q => if q.1 = k then (k, v) else q)
  else m ++ [(k, v)]

/-- Insertion-ordered dict `update` with a batch of keys. -/
def updateMeta (m : List (String × String)) (kv : List (String × String)) :
    List (String × String) :=
  kv.foldl (fun acc p => setKey acc p.1 p.2) m

/-- Model of `Normalizer.normalize`: lower/strip the content type,
route markdown vs plain, optionally clean whitespace, optionally
enrich metadata with path-derived fields and an extracted title, and
assemble the `Document` with `normalized_at` read from the clock
(`datetime.utcnow()`), all other fields functions of the input.  No
step of the model can raise, so the `TransformationError` wrapper is
not represented. -/
def Normalizer.normalize (cfg : NormalizerConfig) (now : Nat) (raw : RawDocument) :
    Document :=
  let content_type := strip raw.content_type.toLower
  let text0 :=
    if content_type = "text/markdown" ∨ content_type = "markdown" then
      normalizeMarkdown cfg raw.content
    else normalizePlain cfg raw.content
  let text := if !cfg.preserve_formatting then cleanWhitespace text0 else text0
  let meta :=
    if cfg.extract_metadata then
      updateMeta (updateMeta raw.metadata (inferMetadataFromSource raw.source))
        (match tryExtractTitle text with
         | some t => [("title", t)]
         | none => [])
    else raw.metadata
  { id := raw.id
    source := raw.source
    content := text
    content_type := normalizeContentTypeLabel content_type
    metadata := meta
    extracted_at := raw.extracted_at
    normalized_at := now }

/-! ## Audit loader (`etl_pipeline/loaders/audit_loader.py`)

Both backends see the same abstract sequence of appended events.
`processed_at` is modelled as `Nat`: the `MAX` aggregate of the
relational backend and the `>`-fold of the JSONL backend both compare
`utcnow().isoformat()` values, whose lexicographic order agrees with
chronological order, so one linear order serves both. -/

/-- Model of one audit event row / JSONL object. -/
structure AuditEvent where
  event_type : String
  source_path : Option String
  document_id : Option String
  status : String
  chunks_created : Option Nat
  chunks_loaded : Option Nat
  error_message : Option String
  processed_at : Nat
deriving DecidableEq, Repr

/-- Model of `log_extraction`: status validation, then the event dict
built by the source (only `source_path` identifies the item; no
`document_id`, no counts). -/
def log_extraction (source_path status : String) (error : Option String) (now : Nat) :
    Except String AuditEvent :=
  if status ≠ "success" ∧ status ≠ "failed" ∧ status ≠ "skipped" then
    Except.error "Invalid status"
  else
    Except.ok
      { event_type := "extraction"
        source_path := some source_path
        document_id := none
        status := status
        chunks_created := none
        chunks_loaded := none
        error_message := error
        processed_at := now }

/-- Model of `log_transformation`: the event dict has a `document_id`
and a `chunks_created` count but no `source_path`. -/
def log_transformation (document_id : String) (chunks_created : Nat) (status : String)
    (error : Option String) (now : Nat) : Except String AuditEvent :=
  if status ≠ "success" ∧ status ≠ "failed" then Except.error "Invalid status"
  else
    Except.ok
      { event_type := "transformation"
        source_path := none
        document_id := some document_id
        status := status
        chunks_created := some chunks_created
        chunks_loaded := none
        error_message := error
        processed_at := now }

/-- Model of `log_loading`: the event dict has a `chunks_loaded` count
but neither `source_path` nor `document_id`. -/
def log_loading (chunks_loaded : Nat) (status : String) (error : Option String)
    (now : Nat) : Except String AuditEvent :=
  if status ≠ "success" ∧ status ≠ "failed" then Except.error "Invalid status"
  else
    Except.ok
      { event_type := "loading"
        source_path := none
        document_id := none
        status := status
        chunks_created := none
        chunks_loaded := some chunks_loaded
        error_message := error
        processed_at := now }

/-- An event that was appended by one of the three logging methods. -/
inductive LoggedEvent : AuditEvent → Prop where
  | extraction (source_path status : String) (error : Option String) (now : Nat)
      (e : AuditEvent) :
      log_extraction source_path status error now = Except.ok e → LoggedEvent e
  | transformation (document_id : String) (chunks_created : Nat) (status : String)
      (error : Option String) (now : Nat) (e : AuditEvent) :
      log_transformation document_id chunks_created status error now = Except.ok e →
      LoggedEvent e
  | loading (chunks_loaded : Nat) (status : String) (error : Option String) (now : Nat)
      (e : AuditEvent) :
      log_loading chunks_loaded status error now = Except.ok e → LoggedEvent e

/-- Running maximum step shared by both reads: the JSONL read keeps the
larger of the accumulator and the event timestamp, and the SQL `MAX`
aggregate computes the same running maximum over the filtered rows. -/
def optMax (acc : Option Nat) (t : Nat) : Option Nat :=
  match acc with
  | none => some t
  | some m => if m < t then some t else some m

/-- Model of `_get_last_processed_database`:
`SELECT MAX(processed_at) WHERE source_path = %s AND status = 'success'`
(note: no `event_type` condition; a SQL `NULL` `source_path` never
satisfies the equality). -/
def get_last_processed_database (events : List AuditEvent) (source_path : String) :
    Option Nat :=
  ((events.filter (fun e =>
      e.source_path == some source_path && e.status == "success")).map
    (fun e => e.processed_at)).foldl optMax none

/-- Model of `_get_last_processed_jsonl`: scan every line, keep the
largest `processed_at` among events matching `source_path`,
`status == "success"` and `event_type == "extraction"`. -/
def get_last_processed_jsonl (events : List AuditEvent) (source_path : String) :
    Option Nat :=
  events.foldl
    (fun acc e =>
      if e.source_path == some source_path && e.status == "success" &&
          e.event_type == "extraction" then
        optMax acc e.processed_at
      else acc)
    none

/-! ## Retrieval utility (`etl_pipeline/utils/retrieval.py`)

`hybrid_search` fetches semantic candidates, computes a keyword score
per candidate, and blends the two with the normalized weights.  The
scoring stage is embedded over the list of per-candidate
`(semantic_score, keyword_score)` pairs (both are fixed by the query
and the stored chunks, independent of the weights). -/

/-- Weight normalization at the top of `hybrid_search`:
`total = semantic_weight + keyword_weight`; when positive, each weight
is divided by the total. -/
def normalizeWeights (semantic_weight keyword_weight : ℚ) : ℚ × ℚ :=
  let total := semantic_weight + keyword_weight
  if 0 < total then (semantic_weight / total, keyword_weight / total)
  else (semantic_weight, keyword_weight)

/-- Per-result combined score:
`semantic_weight * semantic_score + keyword_weight * keyword_score`
with the already-normalized weights. -/
def combinedScore (semantic_weight keyword_weight semantic_score keyword_score : ℚ) : ℚ :=
  (normalizeWeights semantic_weight keyword_weight).1 * semantic_score +
    (normalizeWeights semantic_weight keyword_weight).2 * keyword_score

/-- Scoring stage of `hybrid_search` over the candidate pairs: map to
combined scores, drop scores below `min_similarity` when set, sort by
score descending (`reverse=True`), truncate to `top_k`. -/
def hybrid_search_scores (semantic_weight keyword_weight : ℚ) (min_similarity : Option ℚ)
    (top_k : Nat) (cands : List (ℚ × ℚ)) : List ℚ :=
  let scored := cands.map (fun p => combinedScore semantic_weight keyword_weight p.1 p.2)
  let kept :=
    match min_similarity with
    | none => scored
    | some m => scored.filter (fun s => !(s < m))
  (kept.insertionSort (fun a b => b ≤ a)).take top_k

/-- Decidable equality for `Except` outcomes, used to evaluate the
embedded functions on concrete inputs. -/
instance exceptDecEq {ε α : Type} [DecidableEq ε] [DecidableEq α] :
    DecidableEq (Except ε α) := fun x y =>
  match x, y with
  | Except.ok a, Except.ok b =>
    if h : a = b then Decidable.isTrue (by rw [h]) else Decidable.isFalse (by simp [h])
  | Except.error e, Except.error f =>
    if h : e = f then Decidable.isTrue (by rw [h]) else Decidable.isFalse (by simp [h])
  | Except.ok _, Except.error _ => Decidable.isFalse (by simp)
  | Except.error _, Except.ok _ => Decidable.isFalse (by simp)

/-! ## Concrete values used by witnesses and counterexamples -/

/-- A chunker configuration with the source defaults. -/
def cfgEx : ChunkerConfig :=
  { chunk_size := 1000, chunk_overlap := 200, strategy := "recursive_character" }

/-- Metadata value used in concrete `mkChunk` evaluations. -/
def wMeta : ChunkMeta :=
  { source := "s", content_type := "md", chunk_size := 4, chunk_overlap := 0,
    strategy := "recursive_character" }

/-- The chunk produced by `mkChunk 7 "doc" 0 " hi " (some []) wMeta none`. -/
def chunkWitness : Chunk :=
  { id := 7, document_id := "doc", chunk_index := 0, content := "hi",
    embedding := none, metadata := wMeta, content_hash := none }

/-- Loader configuration used in concrete evaluations (upsert mode,
dimension 1). -/
def lcfg1 : LoaderConfig := { batch_size := 100, upsert_mode := true, embedding_dimension := 1 }

/-- Loader configuration with dimension 3, used for the dimension
mismatch evaluation. -/
def lcfg3 : LoaderConfig := { batch_size := 100, upsert_mode := true, embedding_dimension := 3 }

/-- A chunk whose embedding has length 1 (mismatching dimension 3). -/
def badChunk : Chunk :=
  { id := 1, document_id := "doc", chunk_index := 0, content := "hi",
    embedding := some [1], metadata := wMeta, content_hash := none }

/-- A successful extraction event at time 5, as appended by
`log_extraction`. -/
def evExtraction : AuditEvent :=
  { event_type := "extraction", source_path := some "a.md", document_id := none,
    status := "success", chunks_created := none, chunks_loaded := none,
    error_message := none, processed_at := 5 }

/-- A successful transformation event at time 6, as appended by
`log_transformation`. -/
def evTransformation : AuditEvent :=
  { event_type := "transformation", source_path := none, document_id := some "doc",
    status := "success", chunks_created := some 3, chunks_loaded := none,
    error_message := none, processed_at := 6 }

/-- A successful loading event at time 7, as appended by
`log_loading`. -/
def evLoading : AuditEvent :=
  { event_type := "loading", source_path := none, document_id := none,
    status := "success", chunks_created := none, chunks_loaded := some 3,
    error_message := none, processed_at := 7 }

/-- A raw markdown document used in concrete normalizer evaluations. -/
def rawEx : RawDocument :=
  { id := 1, source := "docs/a.md", content := "# Title\nBody",
    content_type := "text/markdown", metadata := [], extracted_at := 0 }

/-- The normalizer configuration with the source defaults. -/
def ncfgEx : NormalizerConfig := { preserve_formatting := false, extract_metadata := true }

/-- A rate-limit `EmbeddingError` as raised by `_embed_openai`. -/
def rateLimitExc : PyExc :=
  PyExc.embeddingError true "text-embedding-3-small" "OpenAI rate limit exceeded"

/-- Attempt outcomes for the retry scenario: rate-limit error on the
first two attempts, success on the third. -/
def fScenario : Nat → Except PyExc (List ℚ) := fun k =>
  if k ≤ 1 then Except.error rateLimitExc else Except.ok [1]

/-- An embedder configuration with dimension 2, used for concrete
evaluations. -/
def ecfg2 : EmbedderConfig :=
  { model := "text-embedding-3-small", dimension := 2, batch_size := 100,
    max_retries := 3, enabled := true }

/-- An embedder configuration with batch size 2, used to exercise
multi-batch evaluations. -/
def ecfg2tiny : EmbedderConfig :=
  { model := "text-embedding-3-small", dimension := 1, batch_size := 2,
    max_retries := 3, enabled := true }

/-! ## Helper lemmas -/

/-- The fuel argument of `toBatchesFuel` is irrelevant once it covers
the list length. -/
theorem toBatchesFuel_congr {α : Type} (bs : Nat) :
    ∀ (f1 f2 : Nat) (l : List α), l.length ≤ f1 → l.length ≤ f2 →
      toBatchesFuel bs f1 l = toBatchesFuel bs f2 l := by
  intro f1
  induction f1 with
  | zero =>
    intro f2 l h1 h2
    cases l with
    | nil => cases f2 <;> rfl
    | cons x xs => simp at h1
  | succ n ih =>
    intro f2 l h1 h2
    cases l with
    | nil => cases f2 <;> rfl
    | cons x xs =>
      cases f2 with
      | zero => simp at h2
      | succ m =>
        show (x :: xs.take (bs - 1)) :: toBatchesFuel bs n (xs.drop (bs - 1)) =
          (x :: xs.take (bs - 1)) :: toBatchesFuel bs m (xs.drop (bs - 1))
        congr 1
        apply ih
        · simp only [List.length_cons] at h1
          simp only [List.length_drop]
          omega
        · simp only [List.length_cons] at h2
          simp only [List.length_drop]
          omega

/-- Unfolding equation for `toBatches` on a nonempty list. -/
theorem toBatches_cons {α : Type} (bs : Nat) (x : α) (xs : List α) :
    toBatches bs (x :: xs) = (x :: xs.take (bs - 1)) :: toBatches bs (xs.drop (bs - 1)) := by
  have hd' : (xs.drop (bs - 1)).length ≤ xs.length := by
    simp only [List.length_drop]
    omega
  calc toBatches bs (x :: xs)
      = (x :: xs.take (bs - 1)) :: toBatchesFuel bs xs.length (xs.drop (bs - 1)) := rfl
    _ = (x :: xs.take (bs - 1)) :: toBatches bs (xs.drop (bs - 1)) := by
        rw [toBatchesFuel_congr bs xs.length (xs.drop (bs - 1)).length _ hd' le_rfl]
        rfl

/-- Batch slicing loses nothing: concatenating the batches gives back
the original list. -/
theorem toBatches_join {α : Type} (bs : Nat) (l : List α) : (toBatches bs l).flatten = l := by
  suffices h : ∀ (n : Nat) (l : List α), l.length ≤ n → (toBatches bs l).flatten = l from
    h l.length l le_rfl
  intro n
  induction n with
  | zero =>
    intro l h
    cases l with
    | nil => rfl
    | cons x xs => simp at h
  | succ n ih =>
    intro l h
    cases l with
    | nil => rfl
    | cons x xs =>
      rw [toBatches_cons, List.flatten_cons]
      have hd : (xs.drop (bs - 1)).length ≤ n := by
        simp only [List.length_drop]
        simp only [List.length_cons] at h
        omega
      rw [ih _ hd]
      simp [List.take_append_drop]

/-- In a nonempty prefix, position 0 agrees with the larger list. -/
theorem prefix_get_zero {α : Type} {l₁ l₂ : List α} (h : l₁ <+: l₂) (h1 : 0 < l₁.length)
    (h2 : 0 < l₂.length) : l₂.get ⟨0, h2⟩ = l₁.get ⟨0, h1⟩ := by
  obtain ⟨t, rfl⟩ := h
  cases l₁ with
  | nil => simp at h1
  | cons a as => rfl

/-- Stripping is idempotent at the character-list level. -/
theorem stripList_idem (cs : List Char) : stripList (stripList cs) = stripList cs := by
  unfold stripList
  have h1 : List.dropWhile pyWs (List.rdropWhile pyWs (cs.dropWhile pyWs)) =
      List.rdropWhile pyWs (cs.dropWhile pyWs) := by
    rw [List.dropWhile_eq_self_iff]
    intro hl
    have hlen : 0 < (cs.dropWhile pyWs).length := by
      have hle := List.IsPrefix.length_le ( List.rdropWhile_prefix pyWs (cs.dropWhile pyWs))
      omega
    have hget : (List.rdropWhile pyWs (cs.dropWhile pyWs)).get ⟨0, hl⟩ =
        (cs.dropWhile pyWs).get ⟨0, hlen⟩ :=
      (prefix_get_zero ( List.rdropWhile_prefix pyWs (cs.dropWhile pyWs)) hl hlen).symm
    rw [hget]
    exact List.dropWhile_get_zero_not pyWs cs hlen
  rw [h1, List.rdropWhile_idempotent]

/-- Stripping is idempotent. -/
theorem strip_strip (s : String) : strip (strip s) = strip s := by
  have hdata : (String.mk (stripList s.data)).data = stripList s.data := rfl
  simp only [strip, hdata, stripList_idem]

/-- The `embedding` field validator never produces the empty list. -/
theorem validateEmbeddingField_ne_empty (o : Option (List ℚ)) :
    validateEmbeddingField o ≠ some [] := by
  cases o with
  | none => simp [validateEmbeddingField]
  | some l =>
    simp only [validateEmbeddingField]
    by_cases h : l.length = 0
    · simp [h]
    · simp only [if_neg h]
      intro hc
      apply h
      simp at hc
      simp [hc]

/-! ## Claim C10: Chunk construction invariants -/

/-- C10: every successfully constructed Chunk has content stripped of
surrounding whitespace and non-empty; construction with
empty/whitespace-only content yields the validation error; an empty
embedding list is coerced to `None`, so a Chunk's embedding is never
the empty list and `has_embedding` is false when the empty list was
passed. -/
theorem chunk_construction_invariants (id : Nat) (d : String) (i : Nat) (content : String)
    (emb : Option (List ℚ)) (meta : ChunkMeta) (hash : Option String) :
    (∀ c, mkChunk id d i content emb meta hash = Except.ok c →
       c.content = strip content ∧ c.content ≠ "" ∧ c.embedding ≠ some [] ∧
       (emb = some [] → c.embedding = none ∧ c.has_embedding = false)) ∧
    (strip content = "" →
       mkChunk id d i content emb meta hash =
         Except.error "Chunk content cannot be empty or whitespace") := by
  constructor
  · intro c hc
    by_cases h : strip content = ""
    · simp [mkChunk, h] at hc
    · rw [mkChunk, if_neg h] at hc
      obtain rfl := (Except.ok.injEq _ _).mp hc.symm
      refine ⟨rfl, h, validateEmbeddingField_ne_empty emb, ?_⟩
      rintro rfl
      exact ⟨rfl, rfl⟩
  · intro h
    simp [mkChunk, h]

/-- Witness for C10 at a concrete construction. -/
theorem chunk_construction_invariants_witness :
    chunkWitness.content = strip " hi " ∧ chunkWitness.content ≠ "" ∧
    chunkWitness.embedding ≠ some [] ∧
    (some ([] : List ℚ) = some [] →
      chunkWitness.embedding = none ∧ chunkWitness.has_embedding = false) :=
  (chunk_construction_invariants 7 "doc" 0 " hi " (some []) wMeta none).1
    chunkWitness (by decide)

/-! ## Claim C2: chunk index structure -/

/-- The chunker conversion loop succeeds and produces chunks whose
indices are the `enumerate` positions of the retained texts: strictly
increasing, bounded, and contiguous from `idx` exactly when no text is
skipped. -/
theorem chunkLoop_spec (cfg : ChunkerConfig) (mkId : Nat → Nat) (d s ct : String)
    (texts : List String) (idx : Nat) :
    ∃ cs, chunkLoop cfg mkId d s ct idx texts = Except.ok cs ∧
      (∀ c ∈ cs, c.document_id = d ∧ strip c.content = c.content ∧ c.content ≠ "" ∧
        idx ≤ c.chunk_index ∧ c.chunk_index < idx + texts.length) ∧
      (cs.map Chunk.chunk_index).Chain' (· < ·) ∧
      ((∀ t ∈ texts, strip t ≠ "") →
        cs.map Chunk.chunk_index = List.range' idx texts.length) := by
  induction texts generalizing idx with
  | nil => exact ⟨[], rfl, by simp, by simp, by simp⟩
  | cons t rest ih =>
    obtain ⟨cs', h1, h2, h3, h4⟩ := ih (idx + 1)
    by_cases ht : strip t = ""
    · refine ⟨cs', by simp [chunkLoop, ht, h1], ?_, h3, ?_⟩
      · intro c hc
        obtain ⟨ha, hb, hcne, hd, he⟩ := h2 c hc
        refine ⟨ha, hb, hcne, by omega, ?_⟩
        simp only [List.length_cons]
        omega
      · intro hall
        exact absurd (hall t (by simp)) (by simp [ht])
    · have hok : chunkOfText cfg mkId d s ct idx t = Except.ok
          { id := mkId idx, document_id := d, chunk_index := idx, content := strip t,
            embedding := none,
            metadata := ⟨s, ct, t.length, cfg.chunk_overlap, cfg.strategy⟩,
            content_hash := none } := by
        unfold chunkOfText mkChunk
        rw [strip_strip]
        simp [ht, validateEmbeddingField]
      obtain ⟨c0, hc0, hc0eq⟩ :
          ∃ c0, chunkOfText cfg mkId d s ct idx t = Except.ok c0 ∧
            c0 = { id := mkId idx, document_id := d, chunk_index := idx, content := strip t,
                   embedding := none,
                   metadata := ⟨s, ct, t.length, cfg.chunk_overlap, cfg.strategy⟩,
                   content_hash := none } := ⟨_, hok, rfl⟩
      refine ⟨c0 :: cs', ?_, ?_, ?_, ?_⟩
      · rw [chunkLoop, if_neg ht, hc0, h1]
        rfl
      · intro c hc
        rcases List.mem_cons.mp hc with rfl | hc'
        · subst hc0eq
          exact ⟨rfl, strip_strip t, ht, le_refl idx, by simp⟩
        · obtain ⟨ha, hb, hcne, hd, he⟩ := h2 c hc'
          refine ⟨ha, hb, hcne, by omega, ?_⟩
          simp only [List.length_cons]
          omega
      · have hcix : c0.chunk_index = idx := by rw [hc0eq]
        rw [List.map_cons, List.chain'_cons']
        refine ⟨?_, h3⟩
        intro y hy
        have hmem : y ∈ cs'.map Chunk.chunk_index := by
          cases hh : (cs'.map Chunk.chunk_index).head? with
          | none => simp [hh] at hy
          | some z =>
            rw [hh] at hy
            simp only [Option.mem_def, Option.some.injEq] at hy
            subst hy
            exact List.mem_of_mem_head? hh
        obtain ⟨c, hc, rfl⟩ := List.mem_map.mp hmem
        have hlow := (h2 c hc).2.2.2.1
        omega
      · intro hall
        have h4' := h4 (fun u hu => hall u (List.mem_cons_of_mem t hu))
        have hcix : c0.chunk_index = idx := by rw [hc0eq]
        rw [List.map_cons, h4', List.length_cons, List.range'_succ, hcix]

/-- C2 (amended): Chunker.chunk always succeeds; every returned chunk
carries the document's `document_id` and stripped, non-empty content;
`chunk_index` values are strictly increasing positions in the splitter
output (hence no duplicates); and they are exactly `0..n-1` whenever no
splitter text is whitespace-only (the `continue` that skips a
whitespace-only splitter text keeps counting, so a skipped text leaves
a gap). -/
theorem chunker_chunk_properties (cfg : ChunkerConfig) (mkId : Nat → Nat)
    (split : String → List String) (d s ct content : String) :
    ∃ cs, Chunker.chunk cfg mkId split d s ct content = Except.ok cs ∧
      (∀ c ∈ cs, c.document_id = d ∧ strip c.content = c.content ∧ c.content ≠ "") ∧
      (cs.map Chunk.chunk_index).Chain' (· < ·) ∧
      (strip content ≠ "" → (∀ t ∈ split content, strip t ≠ "") →
        cs.map Chunk.chunk_index = List.range (split content).length) := by
  by_cases h : strip content = ""
  · exact ⟨[], by simp [Chunker.chunk, h], by simp, by simp, fun hc => absurd h hc⟩
  · obtain ⟨cs, h1, h2, h3, h4⟩ := chunkLoop_spec cfg mkId d s ct (split content) 0
    refine ⟨cs, by simp [Chunker.chunk, h, h1], ?_, h3, ?_⟩
    · intro c hc
      obtain ⟨ha, hb, hcne, _, _⟩ := h2 c hc
      exact ⟨ha, hb, hcne⟩
    · intro _ hall
      rw [h4 hall, List.range_eq_range']

/-- Witness for C2 (amended) on a concrete splitter output with no
whitespace-only text: the indices are exactly `0..n-1`. -/
theorem chunker_chunk_properties_witness :
    (Chunker.chunk cfgEx (fun i => i) (fun _ => ["a", "b"]) "d" "s" "md" "ab").map
      (fun cs => cs.map Chunk.chunk_index) = Except.ok (List.range 2) := by
  obtain ⟨cs, h1, _, _, h4⟩ :=
    chunker_chunk_properties cfgEx (fun i => i) (fun _ => ["a", "b"]) "d" "s" "md" "ab"
  have h5 := h4 (by decide) (by decide)
  rw [h1, Except.map, h5]
  rfl

/-- C2 counterexample to the claim as stated: on a splitter output
containing a whitespace-only text, the produced `chunk_index` values
are `[0, 2]` for `n = 2` chunks — not `0..n-1`. -/
theorem chunker_contiguity_counterexample :
    (Chunker.chunk cfgEx (fun i => i) (fun _ => ["a", " ", "b"]) "d" "s" "text/plain"
        "a b").map (fun cs => cs.map Chunk.chunk_index) = Except.ok [0, 2] ∧
    ([0, 2] : List Nat) ≠ List.range 2 := by
  constructor
  · decide
  · decide

/-! ## Claim C5: store-side dimension enforcement -/

/-- If some chunk's embedding length differs from the (positive)
configured dimension, the validation loop reports a validation
error. -/
theorem validateChunkEmbeddings_some (dim : Nat) (chunks : List Chunk)
    (hbad : ∃ c ∈ chunks, chunkEmbLen c ≠ dim) :
    ∃ msg, validateChunkEmbeddings dim chunks = some (LoadErr.validationError msg) := by
  induction chunks with
  | nil => simp at hbad
  | cons c rest ih =>
    cases hemb : c.embedding with
    | none => exact ⟨"missing embedding", by simp [validateChunkEmbeddings, hemb]⟩
    | some e =>
      by_cases he : e = []
      · exact ⟨"missing embedding", by simp [validateChunkEmbeddings, hemb, he]⟩
      · by_cases hlen : e.length = dim
        · have hc : chunkEmbLen c = dim := by simp [chunkEmbLen, hemb, hlen]
          obtain ⟨d, hd, hdne⟩ := hbad
          rcases List.mem_cons.mp hd with rfl | hd'
          · exact absurd hc hdne
          · obtain ⟨msg, hmsg⟩ := ih ⟨d, hd', hdne⟩
            refine ⟨msg, ?_⟩
            simp [validateChunkEmbeddings, hemb, he, hlen, hmsg]
        · exact ⟨"embedding dimension mismatch",
            by simp [validateChunkEmbeddings, hemb, he, hlen]⟩

/-- C5: writing a chunk list containing an embedding of the wrong
length through `load_chunks` raises a validation error and leaves the
store unchanged — the validation loop runs to completion before any
database write, in both upsert and insert modes. -/
theorem load_chunks_dimension_enforcement (cfg : LoaderConfig) (table chunks : List Chunk)
    (_hdim : 0 < cfg.embedding_dimension)
    (hbad : ∃ c ∈ chunks, chunkEmbLen c ≠ cfg.embedding_dimension) :
    ∃ msg, load_chunks cfg table chunks =
      { table := table, error := some (LoadErr.validationError msg) } := by
  obtain ⟨msg, hmsg⟩ := validateChunkEmbeddings_some cfg.embedding_dimension chunks hbad
  have hne : chunks ≠ [] := by
    rintro rfl
    simp at hbad
  refine ⟨msg, ?_⟩
  simp [load_chunks, hne, hmsg]

/-- Witness for C5: a chunk with a length-1 embedding against
configured dimension 3 is rejected with the store unchanged. -/
theorem load_chunks_dimension_enforcement_witness :
    (0 < lcfg3.embedding_dimension) ∧ (∃ c ∈ [badChunk], chunkEmbLen c ≠ lcfg3.embedding_dimension) ∧
    ∃ msg, load_chunks lcfg3 [] [badChunk] =
      { table := [], error := some (LoadErr.validationError msg) } :=
  ⟨by decide, ⟨badChunk, by simp, by decide⟩,
    load_chunks_dimension_enforcement lcfg3 [] [badChunk] (by decide)
      ⟨badChunk, by simp, by decide⟩⟩

/-! ## Claim C1: re-ingestion is not idempotent (fresh uuid4 ids) -/

/-- C1: evaluating the pipeline at the failing input.  The same
document content is ingested twice; the chunker assigns each run's
chunk a fresh `uuid4` (run one draws id 1, run two draws id 2, distinct
with probability one), so the upsert's `ON CONFLICT (id)` never fires
across runs: the first run leaves one row, the second leaves two rows
for identical content, instead of replacing the existing row. -/
theorem reingestion_duplicates_rows :
    (ingestDocument cfgEx lcfg1 (fun _ => 1) (fun _ => ["hello"]) (fun _ => [1])
        "d" "s" "md" "hello" []).table.length = 1 ∧
    (ingestDocument cfgEx lcfg1 (fun _ => 2) (fun _ => ["hello"]) (fun _ => [1])
        "d" "s" "md" "hello"
        (ingestDocument cfgEx lcfg1 (fun _ => 1) (fun _ => ["hello"]) (fun _ => [1])
          "d" "s" "md" "hello" []).table).table.length = 2 := by
  constructor
  · decide
  · decide

/-! ## Claim C7: audit backend equivalence -/

/-- Events appended by the loggers carry a `source_path` only when
they are extraction events. -/
theorem loggedEvent_nonextraction_no_source (e : AuditEvent) (h : LoggedEvent e) :
    e.source_path = none ∨ e.event_type = "extraction" := by
  cases h with
  | extraction p s err t e he =>
    right
    unfold log_extraction at he
    split at he
    · exact absurd he (by simp)
    · obtain rfl := (Except.ok.injEq _ _).mp he
      rfl
  | transformation d n s err t e he =>
    left
    unfold log_transformation at he
    split at he
    · exact absurd he (by simp)
    · obtain rfl := (Except.ok.injEq _ _).mp he
      rfl
  | loading n s err t e he =>
    left
    unfold log_loading at he
    split at he
    · exact absurd he (by simp)
    · obtain rfl := (Except.ok.injEq _ _).mp he
      rfl

/-- A conditional running-maximum fold is the fold of the filtered
projection. -/
theorem foldl_optMax_filter (q : AuditEvent → Bool) (events : List AuditEvent)
    (acc : Option Nat) :
    events.foldl (fun a e => if q e then optMax a e.processed_at else a) acc =
      ((events.filter q).map (fun e => e.processed_at)).foldl optMax acc := by
  induction events generalizing acc with
  | nil => rfl
  | cons e rest ih =>
    by_cases hq : q e
    · simp [List.filter_cons, hq, ih]
    · simp [List.filter_cons, hq, ih]

/-- The running maximum started from `none` computes `maximum?`. -/
theorem foldl_optMax_eq_max? (l : List Nat) :
    l.foldl optMax none = l.max? := by
  cases l with
  | nil => rfl
  | cons a as =>
    have hgen : ∀ (m : Nat) (l : List Nat), l.foldl optMax (some m) = some (l.foldl max m) := by
      intro m l
      induction l generalizing m with
      | nil => rfl
      | cons b bs ih =>
        have hstep : optMax (some m) b = some (max m b) := by
          unfold optMax
          by_cases h : m < b
          · simp [h, Nat.max_eq_right (Nat.le_of_lt h)]
          · simp [h, Nat.max_eq_left (Nat.not_lt.mp h)]
        simp only [List.foldl_cons, hstep, ih]
    calc List.foldl optMax none (a :: as) = List.foldl optMax (some a) as := rfl
      _ = some (as.foldl max a) := hgen a as
      _ = (a :: as).max? := rfl

/-- C7: over any sequence of logged audit events and any source path,
the relational read (`MAX` over `source_path`/`status` matches) and the
JSONL read (scan filtered additionally on `event_type == "extraction"`)
agree, and both return the maximum recorded timestamp of successful
extraction events for that path, `none` when there is none.  The
equality holds because only extraction events carry a `source_path`, so
the missing `event_type` condition in the SQL query cannot include other
events. -/
theorem audit_backend_equivalence (events : List AuditEvent) (p : String)
    (h : ∀ e ∈ events, LoggedEvent e) :
    get_last_processed_database events p = get_last_processed_jsonl events p ∧
    get_last_processed_database events p =
      ((events.filter (fun e => e.source_path == some p && e.status == "success" &&
          e.event_type == "extraction")).map (fun e => e.processed_at)).max? := by
  have hfilter : events.filter (fun e => e.source_path == some p && e.status == "success") =
      events.filter (fun e => e.source_path == some p && e.status == "success" &&
        e.event_type == "extraction") := by
    apply List.filter_congr
    intro e he
    rcases loggedEvent_nonextraction_no_source e (h e he) with hs | ht
    · simp [hs]
    · simp [ht]
  have hdb : get_last_processed_database events p =
      ((events.filter (fun e => e.source_path == some p && e.status == "success" &&
        e.event_type == "extraction")).map (fun e => e.processed_at)).foldl optMax none := by
    rw [get_last_processed_database, hfilter]
  have hjl : get_last_processed_jsonl events p =
      ((events.filter (fun e => e.source_path == some p && e.status == "success" &&
        e.event_type == "extraction")).map (fun e => e.processed_at)).foldl optMax none := by
    rw [get_last_processed_jsonl,
      foldl_optMax_filter (fun e => e.source_path == some p && e.status == "success" &&
        e.event_type == "extraction") events none]
  exact ⟨hdb.trans hjl.symm, hdb.trans (foldl_optMax_eq_max? _)⟩

/-- Witness for C7: a concrete logged sequence (one extraction, one
transformation, one loading, all successful) on which both backends
return the extraction timestamp. -/
theorem audit_backend_equivalence_witness :
    get_last_processed_database [evExtraction, evTransformation, evLoading] "a.md" =
      get_last_processed_jsonl [evExtraction, evTransformation, evLoading] "a.md" ∧
    get_last_processed_database [evExtraction, evTransformation, evLoading] "a.md" =
      (([evExtraction, evTransformation, evLoading].filter
        (fun e => e.source_path == some "a.md" && e.status == "success" &&
          e.event_type == "extraction")).map (fun e => e.processed_at)).max? :=
  audit_backend_equivalence [evExtraction, evTransformation, evLoading] "a.md"
    (by
      intro e he
      rcases List.mem_cons.mp he with rfl | he
      · exact LoggedEvent.extraction "a.md" "success" none 5 _ (by decide)
      rcases List.mem_cons.mp he with rfl | he
      · exact LoggedEvent.transformation "doc" 3 "success" none 6 _ (by decide)
      rcases List.mem_cons.mp he with rfl | he
      · exact LoggedEvent.loading 3 "success" none 7 _ (by decide)
      exact absurd he (List.not_mem_nil e))

/-! ## Claim C8: normalizer determinism -/

/-- C8 counterexample to the claim as stated: `normalize` reads the
wall clock for `normalized_at` (`datetime.utcnow()`), so two calls on
the same raw document with the same configuration, made at different
instants, return different Documents. -/
theorem normalizer_determinism_counterexample :
    Normalizer.normalize ncfgEx 0 rawEx ≠ Normalizer.normalize ncfgEx 1 rawEx := by
  intro heq
  have h0 : (Normalizer.normalize ncfgEx 0 rawEx).normalized_at = 0 := rfl
  have h1 : (Normalizer.normalize ncfgEx 1 rawEx).normalized_at = 1 := rfl
  rw [heq, h1] at h0
  exact Nat.one_ne_zero h0

/-- C8 (amended): `normalize` is deterministic in every field except
`normalized_at`: all other output fields are functions of the raw
document and the configuration alone, while `normalized_at` records the
wall-clock instant of the call. -/
theorem normalize_deterministic_except_timestamp (cfg : NormalizerConfig)
    (now now' : Nat) (raw : RawDocument) :
    (Normalizer.normalize cfg now raw).id = (Normalizer.normalize cfg now' raw).id ∧
    (Normalizer.normalize cfg now raw).source = (Normalizer.normalize cfg now' raw).source ∧
    (Normalizer.normalize cfg now raw).content = (Normalizer.normalize cfg now' raw).content ∧
    (Normalizer.normalize cfg now raw).content_type =
      (Normalizer.normalize cfg now' raw).content_type ∧
    (Normalizer.normalize cfg now raw).metadata = (Normalizer.normalize cfg now' raw).metadata ∧
    (Normalizer.normalize cfg now raw).extracted_at =
      (Normalizer.normalize cfg now' raw).extracted_at ∧
    (Normalizer.normalize cfg now raw).normalized_at = now ∧
    (Normalizer.normalize cfg now' raw).normalized_at = now' :=
  ⟨rfl, rfl, rfl, rfl, rfl, rfl, rfl, rfl⟩

/-! ## Claim C9: hybrid-search weight normalization -/

/-- Scaling both weights by a positive constant does not change the
normalized weights. -/
theorem normalizeWeights_scale (sw kw c : ℚ) (h : 0 < sw + kw) (hc : 0 < c) :
    normalizeWeights (c * sw) (c * kw) = normalizeWeights sw kw := by
  unfold normalizeWeights
  have hsum : c * sw + c * kw = c * (sw + kw) := by ring
  have h' : 0 < c * sw + c * kw := by
    rw [hsum]
    exact mul_pos hc h
  rw [if_pos h', if_pos h, hsum]
  have hc0 : c ≠ 0 := ne_of_gt hc
  rw [mul_div_mul_left sw (sw + kw) hc0, mul_div_mul_left kw (sw + kw) hc0]

/-- The combined score is the weighted average stated by the spec. -/
theorem combinedScore_formula (sw kw sem key : ℚ) (h : 0 < sw + kw) :
    combinedScore sw kw sem key = (sw * sem + kw * key) / (sw + kw) := by
  unfold combinedScore normalizeWeights
  rw [if_pos h]
  field_simp

/-- C9: with positive total weight, each hybrid result's combined score
is `(semantic_weight * semantic + keyword_weight * keyword) divided by
the weight total` (weights normalized to sum to 1), and scaling both
weights by any positive constant leaves every score — and hence the
whole filtered, sorted, truncated result list — unchanged. -/
theorem hybrid_weight_normalization (sw kw c : ℚ) (min_similarity : Option ℚ)
    (top_k : Nat) (cands : List (ℚ × ℚ)) (h : 0 < sw + kw) (hc : 0 < c) :
    (cands.map (fun p => combinedScore sw kw p.1 p.2) =
      cands.map (fun p => (sw * p.1 + kw * p.2) / (sw + kw))) ∧
    hybrid_search_scores (c * sw) (c * kw) min_similarity top_k cands =
      hybrid_search_scores sw kw min_similarity top_k cands := by
  have hfun : (fun p : ℚ × ℚ => combinedScore (c * sw) (c * kw) p.1 p.2) =
      (fun p : ℚ × ℚ => combinedScore sw kw p.1 p.2) := by
    funext p
    unfold combinedScore
    rw [normalizeWeights_scale sw kw c h hc]
  constructor
  · have : (fun p : ℚ × ℚ => combinedScore sw kw p.1 p.2) =
        (fun p : ℚ × ℚ => (sw * p.1 + kw * p.2) / (sw + kw)) := by
      funext p
      exact combinedScore_formula sw kw p.1 p.2 h
    rw [this]
  · unfold hybrid_search_scores
    rw [hfun]

/-- Witness for C9 at concrete weights 3 and 1, scale 2, two
candidates. -/
theorem hybrid_weight_normalization_witness :
    ((0:ℚ) < 3 + 1) ∧ ((0:ℚ) < 2) ∧
    ([((1:ℚ), (0:ℚ)), (0, 1)].map (fun p => combinedScore 3 1 p.1 p.2) =
      [((1:ℚ), (0:ℚ)), (0, 1)].map (fun p => (3 * p.1 + 1 * p.2) / (3 + 1))) ∧
    hybrid_search_scores (2 * 3) (2 * 1) none 5 [((1:ℚ), (0:ℚ)), (0, 1)] =
      hybrid_search_scores 3 1 none 5 [((1:ℚ), (0:ℚ)), (0, 1)] :=
  ⟨by norm_num, by norm_num,
    (hybrid_weight_normalization 3 1 2 none 5 [((1:ℚ), (0:ℚ)), (0, 1)]
      (by norm_num) (by norm_num)).1,
    (hybrid_weight_normalization 3 1 2 none 5 [((1:ℚ), (0:ℚ)), (0, 1)]
      (by norm_num) (by norm_num)).2⟩

/-! ## Claim C6: retry discipline -/

/-- The `retry_api_call` tuple ends with the catch-all `Exception`, so
every exception matches it. -/
theorem anyInstance_retryApiTuple (e : PyExc) : anyInstance retryApiTuple e = true := by
  cases e <;> rfl

/-- On the final allowed attempt the outcome is propagated unchanged
(tenacity `reraise=True`). -/
theorem retryFrom_zero {α : Type} (tup : List ExcClass) (f : Nat → Except PyExc α) (k : Nat) :
    retryFrom tup f 0 k = (f k, k + 1) := rfl

/-- Unfolding equation of the retry loop while retries remain. -/
theorem retryFrom_succ {α : Type} (tup : List ExcClass) (f : Nat → Except PyExc α) (m k : Nat) :
    retryFrom tup f (m + 1) k =
      match f k with
      | Except.ok v => (Except.ok v, k + 1)
      | Except.error e =>
        if anyInstance tup e then retryFrom tup f m (k + 1)
        else (Except.error e, k + 1) := rfl

/-- Attempts made by the retry loop never exceed
`current + remaining + 1`. -/
theorem retryFrom_attempts_le {α : Type} (tup : List ExcClass) (f : Nat → Except PyExc α) :
    ∀ (remaining k : Nat), (retryFrom tup f remaining k).2 ≤ k + remaining + 1 := by
  intro remaining
  induction remaining with
  | zero =>
    intro k
    rw [retryFrom_zero]
  | succ m ih =>
    intro k
    rw [retryFrom_succ]
    cases hf : f k with
    | ok v => simp
    | error e =>
      show (if anyInstance tup e then retryFrom tup f m (k + 1)
        else (Except.error e, k + 1)).2 ≤ k + (m + 1) + 1
      by_cases he : anyInstance tup e
      · rw [if_pos he]
        have := ih (k + 1)
        omega
      · rw [if_neg he]
        simp

/-- C6 counterexample to the claim as stated: a call that always raises
a `ValidationError` (a non-transient class, never to be retried by the
claim) is retried to the full 3 attempts by `retry_api_call`, because
the configured exception tuple contains the catch-all `Exception`;
`ConfigurationError` likewise matches the tuple. -/
theorem retry_api_call_retries_validation_error :
    (retryCall 3 retryApiTuple (fun _ =>
        (Except.error (PyExc.validationError "field") : Except PyExc (List ℚ)))).2 = 3 ∧
    anyInstance retryApiTuple (PyExc.validationError "field") = true ∧
    anyInstance retryApiTuple (PyExc.configurationError "key") = true := by
  refine ⟨?_, ?_, ?_⟩ <;> decide

/-- C6 (amended): `retry_api_call`'s tuple matches every exception (the
catch-all `Exception` entry), so configuration and validation errors
are retried like transient ones; with errors on the first two attempts
and success on the third, the decorated call returns the success using
exactly 3 attempts, and no call ever makes more than 3 attempts (the
decorator's hard-coded `max_attempts=3`; the `max_retries` configuration
field is not consulted by the decorator). -/
theorem retry_api_call_discipline (f : Nat → Except PyExc (List ℚ)) (v : List ℚ)
    (e0 e1 : PyExc) (h0 : f 0 = Except.error e0) (h1 : f 1 = Except.error e1)
    (h2 : f 2 = Except.ok v) :
    (∀ e, anyInstance retryApiTuple e = true) ∧
    retryCall 3 retryApiTuple f = (Except.ok v, 3) ∧
    (∀ g : Nat → Except PyExc (List ℚ), (retryCall 3 retryApiTuple g).2 ≤ 3) := by
  refine ⟨anyInstance_retryApiTuple, ?_, ?_⟩
  · show retryFrom retryApiTuple f 2 0 = (Except.ok v, 3)
    rw [retryFrom_succ]
    simp only [h0]
    rw [if_pos (anyInstance_retryApiTuple e0), retryFrom_succ]
    simp only [h1]
    rw [if_pos (anyInstance_retryApiTuple e1), retryFrom_zero, h2]
  · intro g
    exact retryFrom_attempts_le retryApiTuple g 2 0

/-- Witness for C6 at the concrete rate-limit scenario. -/
theorem retry_api_call_discipline_witness :
    fScenario 0 = Except.error rateLimitExc ∧ fScenario 1 = Except.error rateLimitExc ∧
    fScenario 2 = Except.ok [1] ∧
    retryCall 3 retryApiTuple fScenario = (Except.ok [1], 3) :=
  ⟨by decide, by decide, by decide,
    (retry_api_call_discipline fScenario [1] rateLimitExc rateLimitExc
      (by decide) (by decide) (by decide)).2.1⟩

/-! ## Claim C4: embedder dimension validation -/

/-- Any success of the retry loop is a success of some attempt. -/
theorem retryFrom_ok {α : Type} (tup : List ExcClass) (f : Nat → Except PyExc α)
    (remaining k : Nat) (v : α) (h : (retryFrom tup f remaining k).1 = Except.ok v) :
    ∃ j, f j = Except.ok v := by
  induction remaining generalizing k with
  | zero =>
    rw [retryFrom_zero] at h
    exact ⟨k, h⟩
  | succ m ih =>
    rw [retryFrom_succ] at h
    cases hf : f k with
    | ok w =>
      simp only [hf] at h
      exact ⟨k, by rw [hf, h]⟩
    | error e =>
      simp only [hf] at h
      by_cases he : anyInstance tup e
      · rw [if_pos he] at h
        exact ih (k + 1) h
      · rw [if_neg he] at h
        simp at h

/-- A successful `embed` body returns a vector of the configured
dimension (the validation at the end of `embed`). -/
theorem embedBody_ok (cfg : EmbedderConfig) (provider : Nat → Except PyExc (List ℚ))
    (text : String) (k : Nat) (v : List ℚ)
    (h : embedBody cfg provider text k = Except.ok v) : v.length = cfg.dimension := by
  unfold embedBody at h
  split at h
  · exact absurd h (by simp)
  split at h
  · exact absurd h (by simp)
  cases hp : provider k with
  | error e =>
    simp only [hp] at h
    exact absurd h (by simp)
  | ok emb =>
    simp only [hp] at h
    split at h
    · exact absurd h (by simp)
    · next hlen =>
      obtain rfl := (Except.ok.injEq _ _).mp h
      exact Decidable.not_not.mp hlen

/-- If the call always raises the same exception, the retry loop ends
by re-raising it. -/
theorem retryFrom_const_error {α : Type} (tup : List ExcClass) (g : Nat → Except PyExc α)
    (E : PyExc) (hg : ∀ k, g k = Except.error E) :
    ∀ (remaining k : Nat), (retryFrom tup g remaining k).1 = Except.error E := by
  intro remaining
  induction remaining with
  | zero =>
    intro k
    rw [retryFrom_zero, hg k]
  | succ m ih =>
    intro k
    rw [retryFrom_succ]
    simp only [hg k]
    by_cases he : anyInstance tup E
    · rw [if_pos he]
      exact ih (k + 1)
    · rw [if_neg he]

/-- C4 (amended): the single-text path `Embedder.embed` validates the
dimension — every vector it returns has the configured length, and when
the provider persistently returns vectors of a wrong length the call
ends with an `EmbeddingError` carrying the configured model name.  (The
batch paths perform no such validation; see the counterexample.) -/
theorem embed_dimension_validation (cfg : EmbedderConfig)
    (provider : Nat → Except PyExc (List ℚ)) (text : String) :
    (∀ v, (Embedder.embed cfg provider text).1 = Except.ok v → v.length = cfg.dimension) ∧
    ((∀ k, ∃ emb, provider k = Except.ok emb ∧ emb.length ≠ cfg.dimension) →
      cfg.enabled = true → strip text ≠ "" →
      (Embedder.embed cfg provider text).1 =
        Except.error (PyExc.embeddingError false cfg.model "Embedding dimension mismatch")) := by
  constructor
  · intro v hv
    obtain ⟨j, hj⟩ := retryFrom_ok retryApiTuple (embedBody cfg provider text) 2 0 v hv
    exact embedBody_ok cfg provider text j v hj
  · intro hp hen hte
    have hbody : ∀ k, embedBody cfg provider text k =
        Except.error (PyExc.embeddingError false cfg.model "Embedding dimension mismatch") := by
      intro k
      obtain ⟨emb, hke, hkl⟩ := hp k
      unfold embedBody
      rw [hen]
      simp only [Bool.not_true, Bool.false_eq_true, if_false]
      rw [if_neg hte]
      simp only [hke]
      rw [if_pos hkl]
    exact retryFrom_const_error retryApiTuple (embedBody cfg provider text) _ hbody 2 0

/-- Witness for C4 (amended): a provider returning a length-1 vector
against configured dimension 2 makes `embed` fail with the
model-naming embedding error. -/
theorem embed_dimension_validation_witness :
    ((∀ k : Nat, ∃ emb, (fun _ : Nat => (Except.ok [0] : Except PyExc (List ℚ))) k =
        Except.ok emb ∧ emb.length ≠ ecfg2.dimension) ∧
      ecfg2.enabled = true ∧ strip "t" ≠ "") ∧
    (Embedder.embed ecfg2 (fun _ => Except.ok [0]) "t").1 =
      Except.error (PyExc.embeddingError false ecfg2.model "Embedding dimension mismatch") :=
  ⟨⟨fun _ => ⟨[0], rfl, by decide⟩, rfl, by decide⟩,
    (embed_dimension_validation ecfg2 (fun _ => Except.ok [0]) "t").2
      (fun _ => ⟨[0], rfl, by decide⟩) rfl (by decide)⟩

/-- C4 counterexample to the claim as stated: in the sequential batch
path a successful provider batch call returns its vectors to the caller
unvalidated — a length-1 vector is returned with no error although the
configured dimension is 2. -/
theorem embed_batch_no_dimension_validation :
    embed_batch_sequential ecfg2 (fun _ => [0]) (fun _ => true)
      (fun _ => Except.error PyExc.timeoutError) ["t"] = Except.ok [[0]] ∧
    ([0] : List ℚ).length ≠ ecfg2.dimension := by
  refine ⟨?_, ?_⟩ <;> decide

/-! ## Claim C3: order preservation of embed_batch -/

/-- When the per-text embed succeeds with the provider's vector for
every text of a batch, the fallback loop returns the batch's vectors in
input order. -/
theorem fallbackTexts_ok (model : String) (g : String → List ℚ)
    (e : String → Except PyExc (List ℚ)) (b : List String)
    (he : ∀ t ∈ b, e t = Except.ok (g t)) :
    fallbackTexts model e b = Except.ok (b.map g) := by
  induction b with
  | nil => rfl
  | cons t ts ih =>
    unfold fallbackTexts
    rw [he t (by simp), ih (fun u hu => he u (by simp [hu]))]
    rfl

/-- The sequential batch loop concatenates the per-batch vectors in
batch order. -/
theorem seqBatches_ok (model : String) (g : String → List ℚ) (batchOk : Nat → Bool)
    (e : String → Except PyExc (List ℚ)) (batches : List (List String)) (i : Nat)
    (he : ∀ b ∈ batches, ∀ t ∈ b, e t = Except.ok (g t)) :
    seqBatches model g batchOk e i batches =
      Except.ok ((batches.map (fun b => b.map g)).flatten) := by
  induction batches generalizing i with
  | nil => rfl
  | cons b rest ih =>
    have hthis : (if batchOk i then Except.ok (b.map g) else fallbackTexts model e b :
        Except PyExc (List (List ℚ))) = Except.ok (b.map g) := by
      by_cases hb : batchOk i
      · rw [if_pos hb]
      · rw [if_neg hb]
        exact fallbackTexts_ok model g e b (he b (by simp))
    unfold seqBatches
    rw [hthis, ih (i + 1) (fun b' hb' t ht => he b' (by simp [hb']) t ht)]
    rfl

/-- The completion loop stores, under each batch index, that batch's
vectors (completion order only determines the storage order). -/
theorem collectResults_ok (model : String) (g : String → List ℚ) (batchOk : Nat → Bool)
    (e : String → Except PyExc (List ℚ)) (batches : List (List String)) (order : List Nat)
    (he : ∀ b ∈ batches, ∀ t ∈ b, e t = Except.ok (g t)) :
    collectResults model g batchOk e batches order =
      Except.ok (order.map (fun i => (i, ((batches.get? i).getD []).map g))) := by
  induction order with
  | nil => rfl
  | cons i rest ih =>
    have hproc : processBatchResult model g batchOk e i ((batches.get? i).getD []) =
        Except.ok (((batches.get? i).getD []).map g) := by
      unfold processBatchResult
      by_cases hb : batchOk i
      · rw [if_pos hb]
      · rw [if_neg hb]
        cases hg : batches.get? i with
        | none => simp [fallbackTexts]
        | some b =>
          simp only [hg, Option.getD_some]
          exact fallbackTexts_ok model g e b (he b (List.get?_mem hg))
    unfold collectResults
    rw [hproc, ih]
    rfl

/-- Looking up a key present in the stored results returns that key's
vectors, regardless of storage order. -/
theorem lookupResult_map (h : Nat → List (List ℚ)) (order : List Nat) (i : Nat)
    (hi : i ∈ order) :
    lookupResult i (order.map (fun j => (j, h j))) = some (h i) := by
  induction order with
  | nil => simp at hi
  | cons j rest ih =>
    simp only [List.map_cons]
    unfold lookupResult
    by_cases hj : j = i
    · subst hj
      simp
    · rw [if_neg hj]
      exact ih (by rcases List.mem_cons.mp hi with rfl | hr
                   · exact absurd rfl hj
                   · exact hr)

/-- Appending folds concatenate the mapped segments. -/
theorem foldl_append_flatten {α : Type} (f : α → List (List ℚ)) (keys : List α)
    (acc : List (List ℚ)) :
    keys.foldl (fun a i => a ++ f i) acc = acc ++ (keys.map f).flatten := by
  induction keys generalizing acc with
  | nil => simp
  | cons k rest ih =>
    simp only [List.foldl_cons, List.map_cons, List.flatten_cons, ih, List.append_assoc]

/-- Indexing a list over `range` of its length recovers a map over the
list. -/
theorem range_map_get {α β : Type} (l : List α) (d : α) (F : α → β) :
    (List.range l.length).map (fun i => F ((l.get? i).getD d)) = l.map F := by
  induction l with
  | nil => rfl
  | cons x xs ih =>
    rw [List.length_cons, List.range_succ_eq_map]
    simp only [List.map_cons, List.map_map]
    congr 1

/-- C3: under both execution modes, `embed_batch` returns exactly the
provider's embedding of each input text, in input order and with the
same length as the input — for every per-batch success/failure pattern
(`batchOk`) and, in the parallel mode, for every completion order of
the batch futures (any permutation of the batch indices): results are
reassembled by batch index, not completion time. -/
theorem embed_batch_order_preservation (cfg : EmbedderConfig) (g : String → List ℚ)
    (batchOk : Nat → Bool) (e : String → Except PyExc (List ℚ)) (texts : List String)
    (order : List Nat)
    (he : ∀ t ∈ texts, e t = Except.ok (g t))
    (horder : order.Perm (List.range (toBatches cfg.batch_size texts).length)) :
    embed_batch_sequential cfg g batchOk e texts = Except.ok (texts.map g) ∧
    embed_batch_parallel cfg g batchOk e texts order = Except.ok (texts.map g) ∧
    (texts.map g).length = texts.length := by
  have hmem : ∀ b ∈ toBatches cfg.batch_size texts, ∀ t ∈ b, e t = Except.ok (g t) := by
    intro b hb t ht
    apply he
    have : t ∈ (toBatches cfg.batch_size texts).flatten := List.mem_flatten.mpr ⟨b, hb, ht⟩
    rwa [toBatches_join] at this
  have hflat : ((toBatches cfg.batch_size texts).map (fun b => b.map g)).flatten =
      texts.map g := by
    rw [← List.map_flatten, toBatches_join]
  refine ⟨?_, ?_, List.length_map _ _⟩
  · unfold embed_batch_sequential
    rw [seqBatches_ok cfg.model g batchOk e _ 0 hmem, hflat]
  · have hcoll := collectResults_ok cfg.model g batchOk e
      (toBatches cfg.batch_size texts) order hmem
    simp only [embed_batch_parallel, hcoll]
    have hkeys : ((order.map (fun i =>
        (i, (((toBatches cfg.batch_size texts).get? i).getD []).map g))).map Prod.fst) =
        order := by
      rw [List.map_map]
      exact List.map_id'' (fun x => rfl) order
    rw [hkeys]
    have hsortper : (order.insertionSort (· ≤ ·)).Perm
        (List.range (toBatches cfg.batch_size texts).length) :=
      (List.perm_insertionSort (· ≤ ·) order).trans horder
    have hsorted : (order.insertionSort (· ≤ ·)).Sorted (· ≤ ·) :=
      List.sorted_insertionSort (· ≤ ·) order
    have hrange : (List.range (toBatches cfg.batch_size texts).length).Sorted (· ≤ ·) :=
      (List.pairwise_lt_range _).imp le_of_lt
    have hsort : order.insertionSort (· ≤ ·) =
        List.range (toBatches cfg.batch_size texts).length :=
      List.eq_of_perm_of_sorted hsortper hsorted hrange
    rw [hsort]
    congr 1
    have hlook : ∀ i ∈ List.range (toBatches cfg.batch_size texts).length,
        (lookupResult i (order.map (fun j =>
          (j, (((toBatches cfg.batch_size texts).get? j).getD []).map g)))).getD [] =
        (((toBatches cfg.batch_size texts).get? i).getD []).map g := by
      intro i hir
      rw [lookupResult_map (fun j => (((toBatches cfg.batch_size texts).get? j).getD []).map g)
        order i (horder.mem_iff.mpr hir)]
      rfl
    rw [foldl_append_flatten]
    rw [List.nil_append]
    rw [List.map_congr_left hlook]
    rw [range_map_get (toBatches cfg.batch_size texts) [] (fun b => b.map g), hflat]

/-- Witness for C3: three texts in batches of two, futures completing
out of submission order (batch 1 before batch 0). -/
theorem embed_batch_order_preservation_witness :
    embed_batch_sequential ecfg2tiny (fun t => [(t.length : ℚ)]) (fun i => i == 0)
      (fun t => Except.ok [(t.length : ℚ)]) ["a", "bb", "ccc"] =
      Except.ok [[1], [2], [3]] ∧
    embed_batch_parallel ecfg2tiny (fun t => [(t.length : ℚ)]) (fun i => i == 0)
      (fun t => Except.ok [(t.length : ℚ)]) ["a", "bb", "ccc"] [1, 0] =
      Except.ok [[1], [2], [3]] := by
  have h := embed_batch_order_preservation ecfg2tiny (fun t => [(t.length : ℚ)])
    (fun i => i == 0) (fun t => Except.ok [(t.length : ℚ)]) ["a", "bb", "ccc"] [1, 0]
    (by intro t ht; rfl) (by decide)
  refine ⟨?_, ?_⟩
  · rw [h.1]
    decide
  · rw [h.2.1]
    decide

end ETL
